import Mathlib

/-!
# NOT10 game-rules core: shallow embedding and verification

This file embeds the round state machine of the NOT10 card-and-betting game
(`assets/js/game.js`) together with the deck utilities it uses
(`assets/js/utils.js`) into Lean, and proves or refutes the specification
claims about betting, card play, pot distribution and turn validation.

Modelling conventions:
* JavaScript numbers holding money amounts, bets, pot values, card values and
  seat indices are modelled as `Int`.  All arithmetic the code performs on
  them (addition, subtraction, comparison, `Math.max`, `%` on non-negative
  operands) is exact on doubles in the ranges the game reaches, so `Int` is
  faithful.  The one place the code leaves exact-integer territory is the
  pot distribution's `Math.floor(pot_cents * (survivorBet /
  totalSurvivorBets))`: the division and the multiplication are IEEE-754
  binary64 operations, each rounding to the nearest double (ties to even),
  and the result can differ by one unit from the exact
  `⌊pot·bet/total⌋`.  These two roundings are modelled bit-exactly by
  `flQuot`/`flProdFloor` below (exact for the whole binary64 normal range,
  which covers every magnitude the game can reach).
* JavaScript objects used as string-keyed maps (`bets_json`,
  `has_raised_json`, `has_bet_json`, `finalized_json`, `potDistributions`)
  are modelled as insertion-ordered association lists `List (String × _)`;
  assigning to an existing key overwrites it in place, assigning a fresh key
  appends it, matching JS object key order.
* The persistence layer (`supabaseClient.*` calls) only mirrors the local
  in-memory mutations, and every function takes an `isOffline` flag that
  skips it; the embedding models the in-memory state transition (the
  `isOffline = true` path), which is the state machine itself.
* `log_json` entries (presentation strings plus wall-clock timestamps) and
  the action audit log carry no game state and are not modelled.
* Thrown JS errors (`ReferenceError`, `TypeError`) are modelled with
  `Option`/error fields in the result types.
-/

namespace NOT10

/-- A player row (`players` table / in-memory player object). -/
structure Player where
  id : String
  name : String
  seat_index : Int
  money_cents : Int
  status : String
  deriving Repr, DecidableEq

/-- The room row: phase, pot, table total, turn holder, rotation index. -/
structure Room where
  code : String
  current_round : Int
  starting_player_index : Int
  pot_cents : Int
  table_total : Int
  phase : String
  turn_player_id : String
  deriving Repr, DecidableEq

/-- Per-round ephemeral state (`round_state` row / `roundState` object). -/
structure RoundState where
  bets_json : List (String × Int)
  has_raised_json : List (String × Bool)
  has_bet_json : List (String × Bool)
  finalized_json : List (String × Bool)
  played_count : Int
  deriving Repr, DecidableEq

/-- The full mutable state a game-logic call touches: the room record, the
player list and the round state. -/
structure GameSt where
  room : Room
  players : List Player
  rs : RoundState
  deriving Repr, DecidableEq

/-- `GAME_CONSTANTS.RAISE_AMOUNTS`: $100, $200, $500 in cents. -/
def RAISE_AMOUNTS : List Int := [10000, 20000, 50000]

/-- `GAME_CONSTANTS.BUST_THRESHOLD`. -/
def BUST_THRESHOLD : Int := 10

/-- `GAME_CONSTANTS.MAX_PLAYERS`. -/
def MAX_PLAYERS : Int := 4

/-- Reading `obj[key]` from a JS object modelled as an assoc list
(keys are unique, so first match is the entry). -/
def getEntry {α : Type} : List (String × α) → String → Option α
  | [], _ => none
  | e :: rest, k => if e.1 = k then some e.2 else getEntry rest k

/-- Writing `obj[key] = v` to a JS object modelled as an assoc list:
overwrite an existing key in place, else append the new key. -/
def setEntry {α : Type} (l : List (String × α)) (k : String) (v : α) :
    List (String × α) :=
  if (getEntry l k).isSome then
    l.map fun e => if e.1 = k then (k, v) else e
  else
    l ++ [(k, v)]

/-- `bets[playerId] || 0`. -/
def getBet (bets : List (String × Int)) (pid : String) : Int :=
  (getEntry bets pid).getD 0

/-- `bets[playerId] = v`. -/
def setBet (bets : List (String × Int)) (pid : String) (v : Int) :
    List (String × Int) :=
  setEntry bets pid v

/-- Truthiness of `flags[playerId]`. -/
def getFlag (flags : List (String × Bool)) (pid : String) : Bool :=
  (getEntry flags pid).getD false

/-- `flags[playerId] = b`. -/
def setFlag (flags : List (String × Bool)) (pid : String) (b : Bool) :
    List (String × Bool) :=
  setEntry flags pid b

/-- `Math.max(0, ...Object.values(bets))`. -/
def betsMax (bets : List (String × Int)) : Int :=
  bets.foldl (fun m e => max m e.2) 0

/-- `survivor.money_cents += share` updates the player object with this id
inside the shared players array; modelled by mapping the matching entry. -/
def mapPlayer (players : List Player) (pid : String) (f : Int → Int) :
    List Player :=
  players.map fun p =>
    if p.id = pid then { p with money_cents := f p.money_cents } else p

/-- Sum of all players' balances. -/
def moneySum (players : List Player) : Int :=
  (players.map (·.money_cents)).sum

/-- Total money in the system: balances plus the pot. -/
def totalMoney (st : GameSt) : Int :=
  moneySum st.players + st.room.pot_cents

/-! ## utils.js -/

/-- `utils.dealCards(deck, count)`: `deck.splice(0, count)` removes the first
`count` elements (all of them if the deck is shorter) and returns them;
result is `(dealt, remaining deck)`.  The function is total: it has no
failure path. -/
def dealCards (deck : List Int) (count : Nat) : List Int × List Int :=
  (deck.take count, deck.drop count)

/-- `utils.createDeck()`: 10 copies of each value 0..3, in that order. -/
def createDeck : List Int :=
  (List.replicate 10 (0 : Int)) ++ (List.replicate 10 1) ++
    (List.replicate 10 2) ++ (List.replicate 10 3)

/-- Stable insertion into a seat-sorted list; used to model
`players.sort((a, b) => a.seat_index - b.seat_index)` (a stable sort). -/
def insertBySeat (p : Player) : List Player → List Player
  | [] => [p]
  | q :: rest =>
      if p.seat_index ≤ q.seat_index then p :: q :: rest
      else q :: insertBySeat p rest

/-- Stable sort by `seat_index`. -/
def sortBySeat : List Player → List Player
  | [] => []
  | p :: rest => insertBySeat p (sortBySeat rest)

/-- `utils.getPlayersInTurnOrder(players, startIndex)`: active players in
seat order, rotated so that the player whose seat is `startIndex` (if any)
comes first. -/
def getPlayersInTurnOrder (players : List Player) (startIndex : Int) :
    List Player :=
  let activePlayers := sortBySeat (players.filter fun p => p.status = "active")
  if activePlayers.length = 0 then []
  else
    match activePlayers.findIdx? (fun p => p.seat_index = startIndex) with
    | none => activePlayers
    | some k => activePlayers.drop k ++ activePlayers.take k

/-- The `while` loop body of `utils.getNextPlayerIndex`, with the iteration
counter (`iterations < maxSeats`) as structural fuel. -/
def gnpiLoop (players : List Player) (maxSeats : Int) :
    Nat → Int → Int
  | 0, _ => -1
  | fuel + 1, nextIndex =>
      match players.find? (fun p => p.seat_index = nextIndex) with
      | some p =>
          if p.status = "active" then nextIndex
          else gnpiLoop players maxSeats fuel ((nextIndex + 1).emod maxSeats)
      | none => gnpiLoop players maxSeats fuel ((nextIndex + 1).emod maxSeats)

/-- `utils.getNextPlayerIndex(currentIndex, players, maxSeats = 4)`. -/
def getNextPlayerIndex (currentIndex : Int) (players : List Player)
    (maxSeats : Int := 4) : Int :=
  if (players.filter fun p => p.status = "active").length = 0 then -1
  else gnpiLoop players maxSeats maxSeats.toNat ((currentIndex + 1).emod maxSeats)

/-! ## game.js: processBet -/

/-- Result record returned by `processBet`. -/
structure BetResult where
  success : Bool
  error : Option String := none
  action : Option String := none
  amount : Option Int := none
  newTotal : Option Int := none
  deriving Repr, DecidableEq

/-- `game.processBet(room, players, roundState, playerId, action, amount)`,
offline path.  Returns the result record and the state after the call (the
state is unchanged on every failure path, since the code validates before
mutating). -/
def processBet (st : GameSt) (playerId : String) (action : String)
    (amount : Int) : BetResult × GameSt :=
  match st.players.find? (fun p => p.id = playerId) with
  | none => ({ success := false, error := some "Player not active" }, st)
  | some player =>
    if player.status ≠ "active" then
      ({ success := false, error := some "Player not active" }, st)
    else
      let bets := st.rs.bets_json
      let hasRaised := st.rs.has_raised_json
      let hasBet := st.rs.has_bet_json
      let finalized := st.rs.finalized_json
      let currentPlayerBet := getBet bets playerId
      let tableHighestBet := betsMax bets
      if action = "finalize" then
        if ¬ getFlag hasBet playerId then
          ({ success := false,
             error := some "You must place at least one bet before finalizing." }, st)
        else if currentPlayerBet < 10000 ∧ player.money_cents > 0 then
          ({ success := false,
             error := some "Minimum bet is $100. Please bet or go all-in." }, st)
        else
          ({ success := true, action := some "finalize",
             amount := some currentPlayerBet },
           { st with rs := { st.rs with
               finalized_json := setFlag finalized playerId true } })
      else if action = "bet" then
        if ¬ (amount ∈ RAISE_AMOUNTS) ∧ amount ≠ player.money_cents then
          ({ success := false, error := some "Invalid bet amount" }, st)
        else if player.money_cents < amount then
          ({ success := false, error := some "Insufficient funds" }, st)
        else
          let newPlayerBet := currentPlayerBet + amount
          let isRaise := newPlayerBet > tableHighestBet
          ({ success := true,
             action := some (if isRaise then "raise" else "bet"),
             amount := some amount, newTotal := some newPlayerBet },
           { st with
             room := { st.room with pot_cents := st.room.pot_cents + amount },
             players := mapPlayer st.players playerId (fun m => m - amount),
             rs := { st.rs with
               bets_json := setBet bets playerId newPlayerBet,
               has_raised_json :=
                 if isRaise then setFlag hasRaised playerId true else hasRaised,
               has_bet_json := setFlag hasBet playerId true } })
      else if action = "call" then
        let callAmount := max 0 (tableHighestBet - currentPlayerBet)
        if callAmount > 0 then
          if player.money_cents < callAmount then
            ({ success := false,
               error := some "Insufficient funds to call - use ALL-IN instead" }, st)
          else
            ({ success := true, action := some "call",
               amount := some callAmount },
             { st with
               room := { st.room with
                 pot_cents := st.room.pot_cents + callAmount },
               players := mapPlayer st.players playerId (fun m => m - callAmount),
               rs := { st.rs with
                 bets_json := setBet bets playerId tableHighestBet,
                 has_bet_json := setFlag hasBet playerId true } })
        else
          ({ success := true, action := some "call", amount := some callAmount },
           { st with rs := { st.rs with
               has_bet_json := setFlag hasBet playerId true } })
      else if action = "all-in" then
        let allInAmount := player.money_cents
        if allInAmount = 0 then
          ({ success := false, error := some "No money to go all-in" }, st)
        else
          let newPlayerBet := currentPlayerBet + allInAmount
          let isRaise := newPlayerBet > tableHighestBet
          ({ success := true, action := some "all-in",
             amount := some allInAmount, newTotal := some newPlayerBet },
           { st with
             room := { st.room with
               pot_cents := st.room.pot_cents + allInAmount },
             players := mapPlayer st.players playerId (fun _ => 0),
             rs := { st.rs with
               bets_json := setBet bets playerId newPlayerBet,
               has_raised_json :=
                 if isRaise then setFlag hasRaised playerId true else hasRaised,
               has_bet_json := setFlag hasBet playerId true } })
      else
        ({ success := false, error := some "Invalid action" }, st)

/-! ## game.js: betting-phase helpers -/

/-- `game.isBettingComplete(activePlayers, bets, finalized)`. -/
def isBettingComplete (activePlayers : List Player)
    (finalized : List (String × Bool)) : Bool :=
  activePlayers.all fun p => getFlag finalized p.id

/-- The `while (attempts < totalPlayers)` loop of
`game.getNextBettingPlayer`, attempts counter as fuel. -/
def gnbpLoop (activePlayers : List Player)
    (finalized : List (String × Bool)) : Nat → Int → Option Player
  | 0, _ => none
  | fuel + 1, idx =>
      let nextIndex := getNextPlayerIndex idx activePlayers 4
      match activePlayers.find? (fun p => p.seat_index = nextIndex) with
      | some p =>
          if getFlag finalized p.id then gnbpLoop activePlayers finalized fuel nextIndex
          else some p
      | none => gnbpLoop activePlayers finalized fuel nextIndex

/-- `game.getNextBettingPlayer(activePlayers, currentSeatIndex, finalized)`:
the next active player in seat order who has not finalized, or `none` when
everyone has. -/
def getNextBettingPlayer (activePlayers : List Player)
    (currentSeatIndex : Int) (finalized : List (String × Bool)) :
    Option Player :=
  gnbpLoop activePlayers finalized activePlayers.length currentSeatIndex

/-! ## game.js: transitionToPlaying -/

/-- The highest-bettor scan of `transitionToPlaying`: fold over
`activePlayers` keeping the first strictly-largest committed bet. -/
def highestLoop (bets : List (String × Int)) :
    List Player → Int × Option String → Int × Option String
  | [], acc => acc
  | p :: rest, (hb, hid) =>
      let playerBet := getBet bets p.id
      if playerBet > hb then highestLoop bets rest (playerBet, some p.id)
      else highestLoop bets rest (hb, hid)

/-- `orderedPlayers.splice(idx, 1)` followed by `push`: move the element at
`idx` to the end of the list. -/
def moveIdxToEnd (l : List Player) (idx : Nat) : List Player :=
  (l.take idx ++ l.drop (idx + 1)) ++ (l.drop idx).take 1

/-- `game.transitionToPlaying(room, activePlayers, roundState)`, offline
path.  Returns the updated room together with the resolved play order it
computed (the local `orderedPlayers`), or `none` when the resolved order is
empty (in JS, reading `.id` of `orderedPlayers[0] === undefined` throws a
`TypeError`). -/
def transitionToPlaying (room : Room) (activePlayers : List Player)
    (rs : RoundState) : Option (Room × List Player) :=
  let bets := rs.bets_json
  let hb := highestLoop bets activePlayers (0, none)
  let highestBet := hb.1
  let highestBettorId := hb.2
  let ordered := getPlayersInTurnOrder activePlayers room.starting_player_index
  let orderedPlayers :=
    match highestBettorId with
    | some hid =>
        -- JS truthiness: `if (highestBettorId && highestBet > 0)`
        if hid ≠ "" ∧ highestBet > 0 then
          match ordered.findIdx? (fun (p : Player) => p.id = hid) with
          | some idx =>
              if idx ≠ ordered.length - 1 then moveIdxToEnd ordered idx
              else ordered
          | none => ordered
        else ordered
    | none => ordered
  match orderedPlayers with
  | [] => none
  | firstPlayer :: _ =>
      some ({ room with phase := "playing", turn_player_id := firstPlayer.id },
            orderedPlayers)

/-! ## game.js: processCardPlay -/

/-- Result record returned by `processCardPlay`. -/
structure PlayResult where
  success : Bool
  error : Option String := none
  bust : Bool := false
  total : Option Int := none
  nextPlayerId : Option String := none
  deriving Repr, DecidableEq

/-- `game.processCardPlay(room, players, roundState, playerId, cardValue)`,
offline path.  Checks only that the player exists with status active and
holds the turn; the room phase and the player's hand are not consulted. -/
def processCardPlay (st : GameSt) (playerId : String) (cardValue : Int) :
    PlayResult × GameSt :=
  match st.players.find? (fun p => p.id = playerId) with
  | none => ({ success := false, error := some "Player not active" }, st)
  | some player =>
    if player.status ≠ "active" then
      ({ success := false, error := some "Player not active" }, st)
    else if st.room.turn_player_id ≠ playerId then
      ({ success := false, error := some "Not your turn" }, st)
    else
      let newTotal := st.room.table_total + cardValue
      let room := { st.room with table_total := newTotal }
      let rs := { st.rs with played_count := st.rs.played_count + 1 }
      if newTotal ≥ BUST_THRESHOLD then
        ({ success := true, bust := true, total := some newTotal },
         { st with room := room, rs := rs })
      else
        let activePlayers := st.players.filter fun p => p.status = "active"
        let nextPlayerIndex := getNextPlayerIndex player.seat_index activePlayers
        match activePlayers.find? (fun p => p.seat_index = nextPlayerIndex) with
        | some nextPlayer =>
            ({ success := true, bust := false, total := some newTotal,
               nextPlayerId := some nextPlayer.id },
             { st with
               room := { room with turn_player_id := nextPlayer.id }, rs := rs })
        | none =>
            ({ success := true, bust := false, total := some newTotal },
             { st with room := room, rs := rs })

/-! ## game.js: endRound -/

/-! ### IEEE-754 binary64 rounding, modelled over the integers

The distribution loop evaluates `survivorBet / totalSurvivorBets` and
`pot_cents * proportion` in JS number (binary64) arithmetic.  Both inputs
are exact integers, so the computation is: round the exact quotient to the
nearest double (ties to even), multiply by the exact `pot`, round that
product to the nearest double, floor exactly.  A nonzero double is
`±m·2^e` with `2^52 ≤ m < 2^53`; the helpers below compute that rounding
with pure integer arithmetic (no overflow or subnormal handling, which the
game's magnitudes never approach). -/

/-- Round-half-to-even of the exact quotient `N / D` (for `D > 0`). -/
def rheQuot (N D : Nat) : Nat :=
  let q := N / D
  let r := N % D
  if 2 * r < D then q
  else if D < 2 * r then q + 1
  else if q % 2 = 0 then q else q + 1

/-- Scaling loop: the least `v` with `na < nb·2^(v+53)`, found by counting
up from the accumulator; the fuel bounds the iteration count. -/
def scaleDown (na nb : Nat) : Nat → Nat → Nat
  | 0, v => v
  | fuel + 1, v =>
      if nb * 2 ^ (v + 53) ≤ na then scaleDown na nb fuel (v + 1) else v

/-- Scaling loop: the least `u` with `nbv·2^52 ≤ na·2^u`. -/
def scaleUp (na nbv : Nat) : Nat → Nat → Nat
  | 0, u => u
  | fuel + 1, u =>
      if na * 2 ^ u < nbv * 2 ^ 52 then scaleUp na nbv fuel (u + 1) else u

/-- `flQuot a b` rounds the exact quotient `a / b` to the nearest binary64
double (ties to even), returned as a dyadic pair `(m, e)` of value
`m·2^e`.  The scaling loops bring `|a|·2^u / (|b|·2^v)` into the
significand range `[2^52, 2^53)`; the significand is then rounded
half-to-even and the sign reattached.  `flQuot 0 b = flQuot a 0 = (0, 0)`
(the division-by-zero case is never reached by the code below). -/
def flQuot (a b : Int) : Int × Int :=
  let na := a.natAbs
  let nb := b.natAbs
  if na = 0 ∨ nb = 0 then (0, 0)
  else
    let v := scaleDown na nb na 0
    let u := scaleUp na (nb * 2 ^ v) (nb + 53) 0
    let m := rheQuot (na * 2 ^ u) (nb * 2 ^ v)
    let sign : Int := if (0 ≤ a) = (0 ≤ b) then 1 else -1
    (sign * m, (v : Int) - (u : Int))

/-- Exact `Math.floor` of a dyadic value `m·2^e`. -/
def dyadicFloor (me : Int × Int) : Int :=
  if 0 ≤ me.2 then me.1 * 2 ^ me.2.toNat else me.1.fdiv (2 ^ (-me.2).toNat)

/-- `Math.floor(pot * x)` where `x = m·2^e` is a double and the product is
itself rounded to the nearest double: the exact product `pot·m·2^e` is a
ratio of integers, re-rounded by `flQuot` and floored exactly. -/
def flProdFloor (pot : Int) (me : Int × Int) : Int :=
  let p := pot * me.1
  let r2 := if 0 ≤ me.2 then flQuot (p * 2 ^ me.2.toNat) 1
    else flQuot p (2 ^ (-me.2).toNat)
  dyadicFloor r2

/-- The share the distribution loop computes for a survivor before the
last-survivor override: `Math.floor(pot / survivors.length)` when no
survivor bet, else `Math.floor(pot * (bet / total))` — both computed in
binary64 double arithmetic, modelled bit-exactly: the quotient is rounded
to the nearest double, the product is rounded to the nearest double, and
the floor is exact.  This can differ from the exact `⌊pot·bet/total⌋` by
one unit (e.g. pot 90670, bet 28768, total 45335 yields 57535, not
57536). -/
def survivorShare (pot total : Int) (nSurv : Nat) (bet : Int) : Int :=
  if total = 0 then dyadicFloor (flQuot pot (nSurv : Int))
  else flProdFloor pot (flQuot bet total)

/-- The distribution `for` loop of `endRound`: walks the survivors with
index `i`, credits each share to the player object and records it in
`potDistributions`, giving the last survivor `pot - totalDistributed`.
Returns (updated players, potDistributions, totalDistributed). -/
def distLoop (pot total : Int) (bets : List (String × Int)) (nSurv : Nat) :
    List Player → Nat → Int → List Player → List (String × Int) →
    List Player × List (String × Int) × Int
  | [], _, distributed, players, dists => (players, dists, distributed)
  | survivor :: rest, i, distributed, players, dists =>
      let survivorBet := getBet bets survivor.id
      let base := survivorShare pot total nSurv survivorBet
      let share := if i = nSurv - 1 then pot - distributed else base
      distLoop pot total bets nSurv rest (i + 1) (distributed + share)
        (mapPlayer players survivor.id (fun m => m + share))
        (dists ++ [(survivor.id, share)])

/-- The survivors of a round: active players other than the eliminated one. -/
def survivorsOf (players : List Player) (eliminatedPlayerId : String) :
    List Player :=
  (players.filter (fun p => p.status = "active")).filter
    (fun p => p.id ≠ eliminatedPlayerId)

/-- Result of `endRound`.  `err` is the error the function raises when its
`return` statement is evaluated: the returned object literal references the
identifiers `perPlayer` and `remainder`, which are bound nowhere in the
module, so reaching the `return` throws a `ReferenceError` — after all
state mutations have already been applied. -/
structure EndRoundRes where
  distributions : List (String × Int)
  err : Option String
  deriving Repr, DecidableEq

/-- `game.endRound(room, players, roundState, eliminatedPlayerId)`, offline
path: weighted pot distribution to survivors, pot reset, phase change,
starting-player rotation — then the throwing `return`. -/
def endRound (st : GameSt) (eliminatedPlayerId : String) :
    GameSt × EndRoundRes :=
  let survivors := survivorsOf st.players eliminatedPlayerId
  let bets := st.rs.bets_json
  let totalSurvivorBets := (survivors.map fun s => getBet bets s.id).sum
  let r := distLoop st.room.pot_cents totalSurvivorBets bets
    survivors.length survivors 0 0 st.players []
  let nextStartingIndex := (st.room.starting_player_index + 1).emod MAX_PLAYERS
  ({ st with
     room := { st.room with
       phase := "round_end", pot_cents := 0,
       starting_player_index := nextStartingIndex },
     players := r.1 },
   { distributions := r.2.1,
     err := some "ReferenceError: perPlayer is not defined" })

/-! ## game.js: validateAction -/

/-- Result of `validateAction`. -/
structure ValidRes where
  valid : Bool
  error : Option String
  deriving Repr, DecidableEq

/-- `game.validateAction(room, playerId, actionType)`: pure phase and turn
validation. -/
def validateAction (room : Room) (playerId : String) (actionType : String) :
    ValidRes :=
  if room.phase = "lobby" then { valid := false, error := some "Game not started" }
  else if room.phase = "round_end" then
    { valid := false, error := some "Round is ending" }
  else if actionType = "play_card" ∧ room.phase ≠ "playing" then
    { valid := false, error := some "Not in playing phase" }
  else if actionType = "bet" ∧ room.phase ≠ "betting" then
    { valid := false, error := some "Not in betting phase" }
  else if (actionType = "play_card" ∨ actionType = "bet") ∧
      room.turn_player_id ≠ playerId then
    { valid := false, error := some "Not your turn" }
  else { valid := true, error := none }

/-- One step of the round state machine, for stating cross-operation
invariants: either a betting action or the round-end distribution. -/
inductive GameAction where
  | betAct (playerId : String) (action : String) (amount : Int)
  | endRoundAct (eliminatedPlayerId : String)
  deriving Repr, DecidableEq

/-- Apply one step to the state, discarding the result record. -/
def applyAction (st : GameSt) : GameAction → GameSt
  | .betAct p a amt => (processBet st p a amt).2
  | .endRoundAct e => (endRound st e).1

/-! ## Basic lemmas about the JS-object model -/

theorem getEntry_overwrite_self {α : Type} (l : List (String × α))
    (k : String) (v : α) :
    getEntry (l.map fun e => if e.1 = k then (k, v) else e) k =
      if (getEntry l k).isSome then some v else none := by
  induction l with
  | nil => simp [getEntry]
  | cons e rest ih =>
    by_cases he : e.1 = k
    · simp [getEntry, he]
    · simp only [List.map_cons, if_neg he, getEntry, ih]

theorem getEntry_overwrite_ne {α : Type} (l : List (String × α))
    (k k' : String) (v : α) (h : k' ≠ k) :
    getEntry (l.map fun e => if e.1 = k then (k, v) else e) k' =
      getEntry l k' := by
  induction l with
  | nil => simp [getEntry]
  | cons e rest ih =>
    by_cases he : e.1 = k
    · have he' : e.1 ≠ k' := fun hk => h (hk ▸ he ▸ rfl)
      simp only [List.map_cons, if_pos he, getEntry,
        if_neg (fun hk : k = k' => h hk.symm), if_neg he', ih]
    · simp only [List.map_cons, if_neg he, getEntry]
      by_cases he' : e.1 = k'
      · simp [he']
      · simp only [if_neg he', ih]

theorem getEntry_append_single_self {α : Type} (l : List (String × α))
    (k : String) (v : α) (h : getEntry l k = none) :
    getEntry (l ++ [(k, v)]) k = some v := by
  induction l with
  | nil => simp [getEntry]
  | cons e rest ih =>
    by_cases he : e.1 = k
    · simp [getEntry, he] at h
    · simp only [getEntry, if_neg he] at h
      simp only [List.cons_append, getEntry, if_neg he]
      exact ih h

theorem getEntry_append_single_ne {α : Type} (l : List (String × α))
    (k k' : String) (v : α) (h : k' ≠ k) :
    getEntry (l ++ [(k, v)]) k' = getEntry l k' := by
  induction l with
  | nil =>
    simp only [List.nil_append, getEntry]
    rw [if_neg (fun hk : k = k' => h hk.symm)]
  | cons e rest ih =>
    simp only [List.cons_append, getEntry]
    by_cases he' : e.1 = k'
    · simp [he']
    · rw [if_neg he', if_neg he']
      exact ih

theorem getEntry_setEntry_self {α : Type} (l : List (String × α)) (k : String)
    (v : α) : getEntry (setEntry l k v) k = some v := by
  unfold setEntry
  by_cases hs : (getEntry l k).isSome
  · rw [if_pos hs, getEntry_overwrite_self, if_pos hs]
  · rw [if_neg hs]
    exact getEntry_append_single_self l k v (Option.not_isSome_iff_eq_none.mp hs)

theorem getEntry_setEntry_ne {α : Type} (l : List (String × α)) (k k' : String)
    (v : α) (h : k' ≠ k) : getEntry (setEntry l k v) k' = getEntry l k' := by
  unfold setEntry
  by_cases hs : (getEntry l k).isSome
  · rw [if_pos hs, getEntry_overwrite_ne _ _ _ _ h]
  · rw [if_neg hs, getEntry_append_single_ne _ _ _ _ h]

theorem getBet_setBet_self (bets : List (String × Int)) (p : String) (v : Int) :
    getBet (setBet bets p v) p = v := by
  simp [getBet, setBet, getEntry_setEntry_self]

theorem getBet_setBet_ne (bets : List (String × Int)) (p q : String) (v : Int)
    (h : q ≠ p) : getBet (setBet bets p v) q = getBet bets q := by
  simp [getBet, setBet, getEntry_setEntry_ne _ _ _ _ h]

theorem getFlag_setFlag_self (flags : List (String × Bool)) (p : String)
    (b : Bool) : getFlag (setFlag flags p b) p = b := by
  simp [getFlag, setFlag, getEntry_setEntry_self]

theorem getFlag_setFlag_ne (flags : List (String × Bool)) (p q : String)
    (b : Bool) (h : q ≠ p) : getFlag (setFlag flags p b) q = getFlag flags q := by
  simp [getFlag, setFlag, getEntry_setEntry_ne _ _ _ _ h]

/-! ## betsMax lemmas -/

theorem le_foldl_max (l : List (String × Int)) (acc : Int) :
    acc ≤ l.foldl (fun m e => max m e.2) acc := by
  induction l generalizing acc with
  | nil => simp
  | cons e rest ih =>
    simp only [List.foldl_cons]
    exact le_trans (le_max_left acc e.2) (ih (max acc e.2))

theorem mem_le_foldl_max (l : List (String × Int)) (k : String) (v : Int)
    (h : (k, v) ∈ l) : ∀ acc : Int, v ≤ l.foldl (fun m e => max m e.2) acc := by
  induction l with
  | nil => simp at h
  | cons e rest ih =>
    intro acc
    simp only [List.foldl_cons]
    rcases List.mem_cons.mp h with heq | hmem
    · subst heq
      exact le_trans (le_max_right acc v) (le_foldl_max rest (max acc v))
    · exact ih hmem (max acc e.2)

theorem getEntry_some_mem {α : Type} (l : List (String × α)) (k : String)
    (v : α) (h : getEntry l k = some v) : (k, v) ∈ l := by
  induction l with
  | nil => simp [getEntry] at h
  | cons e rest ih =>
    by_cases he : e.1 = k
    · simp only [getEntry, if_pos he] at h
      have : e = (k, v) := by
        cases e with
        | mk k0 v0 =>
          cases h
          simp only at he
          rw [he]
      rw [this]
      exact List.mem_cons_self _ _
    · simp only [getEntry, if_neg he] at h
      exact List.mem_cons_of_mem _ (ih h)

theorem betsMax_nonneg (bets : List (String × Int)) : 0 ≤ betsMax bets :=
  le_foldl_max bets 0

theorem getBet_le_betsMax (bets : List (String × Int)) (p : String) :
    getBet bets p ≤ betsMax bets := by
  unfold getBet betsMax
  cases hg : getEntry bets p with
  | none => simpa using betsMax_nonneg bets
  | some v =>
    simpa using mem_le_foldl_max bets p v (getEntry_some_mem _ _ _ hg) 0

/-! ## mapPlayer and moneySum lemmas -/

theorem mapPlayer_map_id (players : List Player) (pid : String) (f : Int → Int) :
    (mapPlayer players pid f).map (·.id) = players.map (·.id) := by
  unfold mapPlayer
  induction players with
  | nil => rfl
  | cons p rest ih =>
    simp only [List.map_cons, List.map_map] at ih ⊢
    by_cases hp : p.id = pid
    · simp [hp, ih]
    · simp [hp, ih]

theorem mapPlayer_eq_of_not_mem (players : List Player) (pid : String)
    (f : Int → Int) (h : pid ∉ players.map (·.id)) :
    mapPlayer players pid f = players := by
  unfold mapPlayer
  induction players with
  | nil => rfl
  | cons p rest ih =>
    simp only [List.map_cons, List.mem_cons] at h
    push_neg at h
    simp only [List.map_cons]
    rw [if_neg (fun hp => h.1 hp.symm), ih h.2]

theorem moneySum_cons (p : Player) (rest : List Player) :
    moneySum (p :: rest) = p.money_cents + moneySum rest := by
  simp [moneySum]

theorem moneySum_mapPlayer (players : List Player) (pid : String)
    (f : Int → Int) (pl : Player)
    (hnd : (players.map (·.id)).Nodup)
    (hf : players.find? (fun p => p.id = pid) = some pl) :
    moneySum (mapPlayer players pid f) =
      moneySum players + (f pl.money_cents - pl.money_cents) := by
  induction players with
  | nil => simp [List.find?] at hf
  | cons p rest ih =>
    simp only [List.map_cons, List.nodup_cons] at hnd
    by_cases hp : p.id = pid
    · have : p = pl := by
        have := List.find?_cons_of_pos (p := fun q => decide (q.id = pid))
          (l := rest) (a := p) (by simpa using hp)
        rw [this] at hf
        exact Option.some.inj hf
      subst this
      have hni : pid ∉ rest.map (·.id) := hp ▸ hnd.1
      unfold mapPlayer
      simp only [List.map_cons, if_pos hp]
      rw [show (rest.map fun q =>
            if q.id = pid then { q with money_cents := f q.money_cents } else q)
          = mapPlayer rest pid f from rfl]
      rw [mapPlayer_eq_of_not_mem rest pid f hni]
      simp [moneySum_cons]
      ring
    · have : rest.find? (fun q => q.id = pid) = some pl := by
        have := List.find?_cons_of_neg (p := fun q => decide (q.id = pid))
          (l := rest) (a := p) (by simpa using hp)
        rw [this] at hf
        exact hf
      unfold mapPlayer
      simp only [List.map_cons, if_neg hp]
      rw [show (rest.map fun q =>
            if q.id = pid then { q with money_cents := f q.money_cents } else q)
          = mapPlayer rest pid f from rfl]
      rw [moneySum_cons, moneySum_cons, ih hnd.2 this]
      ring

theorem find?_mapPlayer (players : List Player) (pid : String) (f : Int → Int) :
    (mapPlayer players pid f).find? (fun p => p.id = pid) =
      (players.find? (fun p => p.id = pid)).map
        (fun pl => { pl with money_cents := f pl.money_cents }) := by
  induction players with
  | nil => simp [mapPlayer, List.find?]
  | cons p rest ih =>
    by_cases hp : p.id = pid
    · unfold mapPlayer
      simp only [List.map_cons, if_pos hp]
      rw [List.find?_cons_of_pos _ (by simpa using hp),
        List.find?_cons_of_pos _ (by simp [hp])]
      simp
    · unfold mapPlayer
      simp only [List.map_cons, if_neg hp]
      rw [List.find?_cons_of_neg _ (by simpa using hp),
        List.find?_cons_of_neg _ (by simpa using hp)]
      exact ih

/-! ## distLoop lemmas: the shape of the pot distribution -/

/-- The per-survivor share before the last-survivor override, as a function. -/
def baseShareOf (pot total : Int) (bets : List (String × Int)) (nSurv : Nat)
    (s : Player) : String × Int :=
  (s.id, survivorShare pot total nSurv (getBet bets s.id))

theorem distLoop_spec (pot total : Int) (bets : List (String × Int))
    (nSurv : Nat) :
    ∀ (survivors : List Player) (hne : survivors ≠ []) (i : Nat) (d : Int)
      (players : List Player) (dists : List (String × Int)),
      i + survivors.length = nSurv →
      (distLoop pot total bets nSurv survivors i d players dists).2.1
        = dists ++ survivors.dropLast.map (baseShareOf pot total bets nSurv)
          ++ [((survivors.getLast hne).id,
               (pot - d) - ((survivors.dropLast.map
                 (baseShareOf pot total bets nSurv)).map (·.2)).sum)]
      ∧ (distLoop pot total bets nSurv survivors i d players dists).2.2 = pot := by
  intro survivors
  induction survivors with
  | nil => intro hne; exact absurd rfl hne
  | cons s rest ih =>
    intro hne i d players dists hlen
    have hunf : distLoop pot total bets nSurv (s :: rest) i d players dists
        = distLoop pot total bets nSurv rest (i + 1)
            (d + (if i = nSurv - 1 then pot - d
              else survivorShare pot total nSurv (getBet bets s.id)))
            (mapPlayer players s.id (fun m => m + (if i = nSurv - 1 then pot - d
              else survivorShare pot total nSurv (getBet bets s.id))))
            (dists ++ [(s.id, (if i = nSurv - 1 then pot - d
              else survivorShare pot total nSurv (getBet bets s.id)))]) := rfl
    cases rest with
    | nil =>
      have hi : i = nSurv - 1 := by
        simp only [List.length_cons, List.length_nil] at hlen
        omega
      rw [hunf, if_pos hi]
      refine ⟨?_, ?_⟩
      · simp [distLoop, List.dropLast, List.getLast]
      · simp only [distLoop]
        omega
    | cons s2 rest2 =>
      have hi : ¬ (i = nSurv - 1) := by
        simp only [List.length_cons] at hlen
        omega
      rw [hunf, if_neg hi]
      have hlen2 : (i + 1) + (s2 :: rest2).length = nSurv := by
        simp only [List.length_cons] at hlen ⊢
        omega
      have hne2 : s2 :: rest2 ≠ [] := by simp
      obtain ⟨h1, h2⟩ := ih hne2 (i + 1)
        (d + survivorShare pot total nSurv (getBet bets s.id))
        (mapPlayer players s.id
          (fun m => m + survivorShare pot total nSurv (getBet bets s.id)))
        (dists ++ [(s.id, survivorShare pot total nSurv (getBet bets s.id))])
        hlen2
      refine ⟨?_, h2⟩
      rw [h1]
      have hdl : (s :: s2 :: rest2).dropLast = s :: (s2 :: rest2).dropLast := rfl
      have hgl : (s :: s2 :: rest2).getLast hne = (s2 :: rest2).getLast hne2 :=
        List.getLast_cons hne2
      rw [hdl, hgl]
      have hsum : pot - (d + survivorShare pot total nSurv (getBet bets s.id)) -
            ((((s2 :: rest2).dropLast.map
              (baseShareOf pot total bets nSurv)).map (·.2)).sum)
          = pot - d - ((((s :: (s2 :: rest2).dropLast).map
              (baseShareOf pot total bets nSurv)).map (·.2)).sum) := by
        simp only [List.map_cons, List.sum_cons, baseShareOf]
        ring
      rw [← hsum]
      simp [baseShareOf, List.append_assoc]

theorem distLoop_moneySum (pot total : Int) (bets : List (String × Int))
    (nSurv : Nat) :
    ∀ (survivors : List Player) (i : Nat) (d : Int) (players : List Player)
      (dists : List (String × Int)),
      (players.map (·.id)).Nodup →
      (∀ s ∈ survivors, s.id ∈ players.map (·.id)) →
      moneySum (distLoop pot total bets nSurv survivors i d players dists).1
        = moneySum players +
          ((distLoop pot total bets nSurv survivors i d players dists).2.2 - d) := by
  intro survivors
  induction survivors with
  | nil =>
    intro i d players dists _ _
    simp [distLoop]
  | cons s rest ih =>
    intro i d players dists hnd hmem
    have hsmem : s.id ∈ players.map (·.id) := hmem s (List.mem_cons_self _ _)
    obtain ⟨pl, hplmem, hplid⟩ := List.mem_map.mp hsmem
    have hfind : (players.find? (fun p => p.id = s.id)).isSome := by
      rw [List.find?_isSome]
      exact ⟨pl, hplmem, by simp [hplid]⟩
    obtain ⟨pl', hpl'⟩ := Option.isSome_iff_exists.mp hfind
    set share := if i = nSurv - 1 then pot - d
      else survivorShare pot total nSurv (getBet bets s.id) with hshare
    have hstep : moneySum (mapPlayer players s.id (fun m => m + share))
        = moneySum players + share := by
      rw [moneySum_mapPlayer players s.id _ pl' hnd hpl']
      ring
    have hnd' : ((mapPlayer players s.id (fun m => m + share)).map (·.id)).Nodup := by
      rw [mapPlayer_map_id]; exact hnd
    have hmem' : ∀ t ∈ rest, t.id ∈
        (mapPlayer players s.id (fun m => m + share)).map (·.id) := by
      intro t ht
      rw [mapPlayer_map_id]
      exact hmem t (List.mem_cons_of_mem _ ht)
    have := ih (i + 1) (d + share)
      (mapPlayer players s.id (fun m => m + share))
      (dists ++ [(s.id, share)]) hnd' hmem'
    simp only [distLoop]
    rw [← hshare]
    rw [this, hstep]
    ring

/-! ## getNextBettingPlayer lemma: finalized players are never selected -/

theorem gnbpLoop_not_finalized (activePlayers : List Player)
    (finalized : List (String × Bool)) :
    ∀ (fuel : Nat) (idx : Int) (p : Player),
      gnbpLoop activePlayers finalized fuel idx = some p →
      getFlag finalized p.id = false := by
  intro fuel
  induction fuel with
  | zero => intro idx p h; simp [gnbpLoop] at h
  | succ fuel ih =>
    intro idx p h
    simp only [gnbpLoop] at h
    rcases hfind : activePlayers.find? (fun q =>
      q.seat_index = getNextPlayerIndex idx activePlayers 4) with _ | q
    · rw [hfind] at h
      exact ih _ p h
    · rw [hfind] at h
      have h' : (if getFlag finalized q.id = true then
          gnbpLoop activePlayers finalized fuel
            (getNextPlayerIndex idx activePlayers 4)
          else some q) = some p := h
      by_cases hfl : getFlag finalized q.id = true
      · rw [if_pos hfl] at h'
        exact ih _ p h'
      · rw [if_neg hfl] at h'
        cases h'
        exact Bool.not_eq_true _ |>.mp hfl

/-! ## highestLoop lemma: the highest bettor is one of the scanned players -/

theorem highestLoop_some_mem (bets : List (String × Int)) :
    ∀ (l : List Player) (acc : Int × Option String) (h : String),
      (highestLoop bets l acc).2 = some h →
      acc.2 = some h ∨ ∃ p ∈ l, p.id = h := by
  intro l
  induction l with
  | nil => intro acc h hh; exact Or.inl hh
  | cons p rest ih =>
    intro acc h hh
    rcases acc with ⟨hb, hid⟩
    simp only [highestLoop] at hh
    by_cases hgt : getBet bets p.id > hb
    · rw [if_pos hgt] at hh
      rcases ih _ h hh with hacc | ⟨q, hq, hqid⟩
      · cases hacc
        exact Or.inr ⟨p, List.mem_cons_self _ _, rfl⟩
      · exact Or.inr ⟨q, List.mem_cons_of_mem _ hq, hqid⟩
    · rw [if_neg hgt] at hh
      rcases ih _ h hh with hacc | ⟨q, hq, hqid⟩
      · exact Or.inl hacc
      · exact Or.inr ⟨q, List.mem_cons_of_mem _ hq, hqid⟩

/-! ## Sort, rotation and move-to-end lemmas for the play order -/

theorem insertBySeat_perm (p : Player) : ∀ l, (insertBySeat p l).Perm (p :: l) := by
  intro l
  induction l with
  | nil => exact List.Perm.refl _
  | cons q rest ih =>
    unfold insertBySeat
    by_cases hle : p.seat_index ≤ q.seat_index
    · rw [if_pos hle]
    · rw [if_neg hle]
      exact (ih.cons q).trans (List.Perm.swap p q rest)

theorem sortBySeat_perm : ∀ l, (sortBySeat l).Perm l := by
  intro l
  induction l with
  | nil => exact List.Perm.refl _
  | cons p rest ih =>
    unfold sortBySeat
    exact (insertBySeat_perm p (sortBySeat rest)).trans (ih.cons p)

theorem getPlayersInTurnOrder_perm (players : List Player) (start : Int) :
    (getPlayersInTurnOrder players start).Perm
      (players.filter fun p => p.status = "active") := by
  unfold getPlayersInTurnOrder
  have hp := sortBySeat_perm (players.filter fun p => p.status = "active")
  by_cases hlen : (sortBySeat (players.filter fun p => p.status = "active")).length = 0
  · rw [if_pos hlen]
    rw [List.length_eq_zero] at hlen
    rw [hlen] at hp
    exact hp
  · rw [if_neg hlen]
    cases hfi : (sortBySeat (players.filter fun p => p.status = "active")).findIdx?
        (fun p => p.seat_index = start) with
    | none => exact hp
    | some k =>
      refine List.Perm.trans ?_ hp
      refine List.Perm.trans (List.perm_append_comm) ?_
      rw [List.take_append_drop]

theorem getPlayersInTurnOrder_nodup (players : List Player) (start : Int)
    (hnd : (players.map (·.id)).Nodup) :
    ((getPlayersInTurnOrder players start).map (·.id)).Nodup := by
  have hsub : ((players.filter fun p => p.status = "active").map (·.id)).Sublist
      (players.map (·.id)) := (List.filter_sublist _).map _
  have hfnd := hnd.sublist hsub
  exact ((getPlayersInTurnOrder_perm players start).map (·.id)).nodup_iff.mpr hfnd

theorem mem_getPlayersInTurnOrder (players : List Player) (start : Int)
    (q : Player) (hq : q ∈ players) (hact : q.status = "active") :
    q ∈ getPlayersInTurnOrder players start := by
  have : q ∈ players.filter fun p => p.status = "active" :=
    List.mem_filter.mpr ⟨hq, by simp [hact]⟩
  exact ((getPlayersInTurnOrder_perm players start).mem_iff).mpr this

theorem take_drop_eq_filters_of_findIdx? (h : String) :
    ∀ (l : List Player) (idx : Nat),
      ((l.map (·.id)).Nodup) →
      l.findIdx? (fun p => p.id = h) = some idx →
      l.take idx ++ l.drop (idx + 1) = l.filter (fun p => p.id ≠ h)
      ∧ (l.drop idx).take 1 = l.filter (fun p => p.id = h) := by
  intro l
  induction l with
  | nil => intro idx _ hfind; simp at hfind
  | cons p rest ih =>
    intro idx hnd hfind
    simp only [List.map_cons, List.nodup_cons] at hnd
    by_cases hp : p.id = h
    · rw [List.findIdx?_cons, if_pos (by simp [hp])] at hfind
      cases hfind
      have hnot : ∀ q ∈ rest, ¬ q.id = h := by
        intro q hq hqh
        exact hnd.1 (List.mem_map.mpr ⟨q, hq, (hqh.trans hp.symm)⟩)
      constructor
      · simp only [List.take_zero, List.drop_succ_cons, List.drop_zero,
          List.nil_append, List.filter_cons]
        rw [if_neg (by simp [hp])]
        rw [List.filter_eq_self.mpr (fun q hq => by simp [hnot q hq])]
      · simp only [List.drop_zero, List.filter_cons]
        rw [if_pos (by simp [hp]),
          List.filter_eq_nil_iff.mpr (fun q hq => by simp [hnot q hq])]
        rfl
    · rw [List.findIdx?_cons, if_neg (by simp [hp]), List.findIdx?_succ] at hfind
      cases hj : rest.findIdx? (fun q => q.id = h) with
      | none => rw [hj] at hfind; simp at hfind
      | some j =>
        rw [hj] at hfind
        simp at hfind
        subst hfind
        obtain ⟨ih1, ih2⟩ := ih j hnd.2 hj
        constructor
        · simp only [List.take_succ_cons, List.drop_succ_cons, List.cons_append,
            List.filter_cons]
          rw [if_pos (by simp [hp]), ih1]
        · simp only [List.drop_succ_cons, List.filter_cons]
          rw [if_neg (by simp [hp]), ih2]

/-- The resolved play order named by the amended claim: the rotated seat
order with the highest bettor moved to the end. -/
def movedToEndOrder (ordered : List Player) (hid : String) : List Player :=
  ordered.filter (fun p => p.id ≠ hid) ++ ordered.filter (fun p => p.id = hid)

theorem getLast?_map_id_of_all (h : String) :
    ∀ l : List Player, l ≠ [] → (∀ p ∈ l, p.id = h) →
      (l.getLast?).map (·.id) = some h := by
  intro l
  induction l with
  | nil => intro hne; exact absurd rfl hne
  | cons p rest ih =>
    intro _ hall
    cases rest with
    | nil => simp [List.getLast?, hall p (List.mem_cons_self _ _)]
    | cons q rest2 =>
      rw [List.getLast?_cons_cons]
      exact ih (by simp) (fun r hr => hall r (List.mem_cons_of_mem _ hr))

theorem transitionToPlaying_shape (room : Room) (activePlayers : List Player)
    (rs : RoundState) (hb : Int) (h : String)
    (hnd : (activePlayers.map (·.id)).Nodup)
    (hact : ∀ p ∈ activePlayers, p.status = "active")
    (hloop : highestLoop rs.bets_json activePlayers (0, none) = (hb, some h))
    (hpos : hb > 0) (hne : h ≠ "") :
    transitionToPlaying room activePlayers rs =
      match movedToEndOrder
          (getPlayersInTurnOrder activePlayers room.starting_player_index) h with
      | [] => none
      | firstPlayer :: tl =>
          some ({ room with phase := "playing", turn_player_id := firstPlayer.id }, firstPlayer :: tl) := by
  have hmem0 := highestLoop_some_mem rs.bets_json activePlayers (0, none) h
    (by rw [hloop])
  rcases hmem0 with habs | ⟨p0, hp0mem, hp0id⟩
  · simp at habs
  set ordered := getPlayersInTurnOrder activePlayers room.starting_player_index
    with hord
  have hp0ord : p0 ∈ ordered :=
    mem_getPlayersInTurnOrder _ _ _ hp0mem (hact p0 hp0mem)
  have hordnd : (ordered.map (·.id)).Nodup :=
    getPlayersInTurnOrder_nodup activePlayers room.starting_player_index hnd
  have hexists : ∃ x, x ∈ ordered ∧ (fun p => decide (p.id = h)) x :=
    ⟨p0, hp0ord, by simp [hp0id]⟩
  have hfind := List.findIdx?_eq_some_of_exists hexists
  obtain ⟨heq1, heq2⟩ := take_drop_eq_filters_of_findIdx? h ordered
    (ordered.findIdx fun p => decide (p.id = h)) hordnd hfind
  have hlenpos : 0 < ordered.length := List.length_pos.mpr
    (List.ne_nil_of_mem hp0ord)
  have hmoved : (match ordered.findIdx? (fun p => p.id = h) with
      | some idx =>
          if idx ≠ ordered.length - 1 then moveIdxToEnd ordered idx else ordered
      | none => ordered) = movedToEndOrder ordered h := by
    simp only [hfind]
    by_cases hidx : (ordered.findIdx fun p => decide (p.id = h))
        = ordered.length - 1
    · rw [if_neg (not_not_intro hidx)]
      have hdropnil : ordered.drop
          ((ordered.findIdx fun p => decide (p.id = h)) + 1) = [] := by
        rw [hidx]
        have hone : ordered.length - 1 + 1 = ordered.length := by omega
        rw [hone]
        exact List.drop_length ordered
      show ordered = movedToEndOrder ordered h
      unfold movedToEndOrder
      rw [← heq1, ← heq2, hdropnil, List.append_nil]
      conv_lhs => rw [← List.take_append_drop
        (ordered.findIdx fun p => decide (p.id = h)) ordered]
      congr 1
      rw [List.take_of_length_le]
      rw [List.length_drop, hidx]
      omega
    · rw [if_pos hidx]
      show moveIdxToEnd ordered _ = movedToEndOrder ordered h
      unfold moveIdxToEnd movedToEndOrder
      rw [heq1, heq2]
  unfold transitionToPlaying
  rw [← hord]
  simp only [hloop]
  rw [if_pos ⟨hne, hpos⟩]
  rw [hmoved]
  cases hM : movedToEndOrder ordered h with
  | nil => rfl
  | cons fp tl => rfl

/-- Such an order always ends with the bettor and is nonempty whenever some
listed player carries the bettor id. -/
theorem movedToEndOrder_getLast (ordered : List Player) (h : String)
    (p0 : Player) (hp0 : p0 ∈ ordered) (hid : p0.id = h) :
    ((movedToEndOrder ordered h).getLast?).map (·.id) = some h
    ∧ movedToEndOrder ordered h ≠ [] := by
  have hp0f : p0 ∈ ordered.filter (fun p => p.id = h) :=
    List.mem_filter.mpr ⟨hp0, by simp [hid]⟩
  have hfne : ordered.filter (fun p => p.id = h) ≠ [] :=
    List.ne_nil_of_mem hp0f
  have hall : ∀ q ∈ ordered.filter (fun p => p.id = h), q.id = h := by
    intro q hq
    have := (List.mem_filter.mp hq).2
    simpa using this
  constructor
  · unfold movedToEndOrder
    rw [List.getLast?_append]
    have hlast := getLast?_map_id_of_all h _ hfne hall
    cases hg : (ordered.filter (fun p => p.id = h)).getLast? with
    | none =>
      rw [hg] at hlast
      simp at hlast
    | some q =>
      rw [hg] at hlast
      simpa [Option.or] using hlast
  · unfold movedToEndOrder
    intro hcon
    rcases List.append_eq_nil.mp hcon with ⟨_, h2⟩
    exact hfne h2

/-! ## Branch equations for processBet -/

theorem getBet_le_setBet (bets : List (String × Int)) (p q : String) (v : Int)
    (hv : getBet bets p ≤ v) : getBet bets q ≤ getBet (setBet bets p v) q := by
  by_cases hq : q = p
  · subst hq
    rw [getBet_setBet_self]
    exact hv
  · rw [getBet_setBet_ne _ _ _ _ hq]

theorem processBet_notFound_eq (st : GameSt) (playerId action : String)
    (amount : Int)
    (hfind : st.players.find? (fun p => p.id = playerId) = none) :
    processBet st playerId action amount
      = ({ success := false, error := some "Player not active" }, st) := by
  unfold processBet
  simp only [hfind]

theorem processBet_inactive_eq (st : GameSt) (playerId action : String)
    (amount : Int) (player : Player)
    (hfind : st.players.find? (fun p => p.id = playerId) = some player)
    (hact : ¬ player.status = "active") :
    processBet st playerId action amount
      = ({ success := false, error := some "Player not active" }, st) := by
  unfold processBet
  simp only [hfind]
  rw [if_pos hact]

theorem processBet_finalize_eq (st : GameSt) (playerId : String)
    (amount : Int) (player : Player)
    (hfind : st.players.find? (fun p => p.id = playerId) = some player)
    (hact : player.status = "active") :
    processBet st playerId "finalize" amount
      = (if ¬ getFlag st.rs.has_bet_json playerId = true then
          ({ success := false,
             error := some "You must place at least one bet before finalizing." }, st)
        else if getBet st.rs.bets_json playerId < 10000 ∧ player.money_cents > 0 then
          ({ success := false,
             error := some "Minimum bet is $100. Please bet or go all-in." }, st)
        else
          ({ success := true, action := some "finalize",
             amount := some (getBet st.rs.bets_json playerId) },
           { st with rs := { st.rs with
               finalized_json := setFlag st.rs.finalized_json playerId true } })) := by
  unfold processBet
  simp only [hfind]
  rw [if_neg (not_not_intro hact)]
  rfl

theorem processBet_bet_eq (st : GameSt) (playerId : String)
    (amount : Int) (player : Player)
    (hfind : st.players.find? (fun p => p.id = playerId) = some player)
    (hact : player.status = "active") :
    processBet st playerId "bet" amount
      = (if amount ∉ RAISE_AMOUNTS ∧ amount ≠ player.money_cents then
          ({ success := false, error := some "Invalid bet amount" }, st)
        else if player.money_cents < amount then
          ({ success := false, error := some "Insufficient funds" }, st)
        else
          ({ success := true,
             action := some (if getBet st.rs.bets_json playerId + amount
                 > betsMax st.rs.bets_json then "raise" else "bet"),
             amount := some amount,
             newTotal := some (getBet st.rs.bets_json playerId + amount) },
           { st with
             room := { st.room with pot_cents := st.room.pot_cents + amount },
             players := mapPlayer st.players playerId (fun m => m - amount),
             rs := { st.rs with
               bets_json := setBet st.rs.bets_json playerId
                 (getBet st.rs.bets_json playerId + amount),
               has_raised_json :=
                 if getBet st.rs.bets_json playerId + amount
                     > betsMax st.rs.bets_json
                 then setFlag st.rs.has_raised_json playerId true
                 else st.rs.has_raised_json,
               has_bet_json := setFlag st.rs.has_bet_json playerId true } })) := by
  unfold processBet
  simp only [hfind]
  rw [if_neg (not_not_intro hact)]
  rfl

/-- The `callAmount` local of the `call` branch:
`Math.max(0, tableHighestBet - currentPlayerBet)`. -/
def callAmountOf (st : GameSt) (playerId : String) : Int :=
  max 0 (betsMax st.rs.bets_json - getBet st.rs.bets_json playerId)

theorem processBet_call_eq (st : GameSt) (playerId : String)
    (amount : Int) (player : Player)
    (hfind : st.players.find? (fun p => p.id = playerId) = some player)
    (hact : player.status = "active") :
    processBet st playerId "call" amount
      = (if callAmountOf st playerId > 0 then
          if player.money_cents < callAmountOf st playerId then
            ({ success := false,
               error := some "Insufficient funds to call - use ALL-IN instead" }, st)
          else
            ({ success := true, action := some "call",
               amount := some (callAmountOf st playerId) },
             { st with
               room := { st.room with
                 pot_cents := st.room.pot_cents + callAmountOf st playerId },
               players := mapPlayer st.players playerId
                 (fun m => m - callAmountOf st playerId),
               rs := { st.rs with
                 bets_json := setBet st.rs.bets_json playerId (betsMax st.rs.bets_json),
                 has_bet_json := setFlag st.rs.has_bet_json playerId true } })
        else
          ({ success := true, action := some "call",
             amount := some (callAmountOf st playerId) },
           { st with rs := { st.rs with
               has_bet_json := setFlag st.rs.has_bet_json playerId true } })) := by
  unfold processBet
  simp only [hfind]
  rw [if_neg (not_not_intro hact)]
  rfl

theorem processBet_allin_eq (st : GameSt) (playerId : String)
    (amount : Int) (player : Player)
    (hfind : st.players.find? (fun p => p.id = playerId) = some player)
    (hact : player.status = "active") :
    processBet st playerId "all-in" amount
      = (if player.money_cents = 0 then
          ({ success := false, error := some "No money to go all-in" }, st)
        else
          ({ success := true, action := some "all-in",
             amount := some player.money_cents,
             newTotal := some (getBet st.rs.bets_json playerId
               + player.money_cents) },
           { st with
             room := { st.room with
               pot_cents := st.room.pot_cents + player.money_cents },
             players := mapPlayer st.players playerId (fun _ => 0),
             rs := { st.rs with
               bets_json := setBet st.rs.bets_json playerId
                 (getBet st.rs.bets_json playerId + player.money_cents),
               has_raised_json :=
                 if getBet st.rs.bets_json playerId + player.money_cents
                     > betsMax st.rs.bets_json
                 then setFlag st.rs.has_raised_json playerId true
                 else st.rs.has_raised_json,
               has_bet_json := setFlag st.rs.has_bet_json playerId true } })) := by
  unfold processBet
  simp only [hfind]
  rw [if_neg (not_not_intro hact)]
  rfl

theorem processBet_other_eq (st : GameSt) (playerId action : String)
    (amount : Int) (player : Player)
    (hfind : st.players.find? (fun p => p.id = playerId) = some player)
    (hact : player.status = "active")
    (h1 : action ≠ "finalize") (h2 : action ≠ "bet") (h3 : action ≠ "call")
    (h4 : action ≠ "all-in") :
    processBet st playerId action amount
      = ({ success := false, error := some "Invalid action" }, st) := by
  unfold processBet
  simp only [hfind]
  rw [if_neg (not_not_intro hact)]
  rw [if_neg h1, if_neg h2, if_neg h3, if_neg h4]

/-! ## Concrete fixtures used to instantiate the claims -/

/-- Seat-0 player with the starting balance. -/
def exA : Player :=
  { id := "A", name := "Alice", seat_index := 0, money_cents := 100000,
    status := "active" }

/-- Seat-1 player with the starting balance. -/
def exB : Player :=
  { id := "B", name := "Bob", seat_index := 1, money_cents := 100000,
    status := "active" }

/-- Seat-2 player with the starting balance. -/
def exC : Player :=
  { id := "C", name := "Cara", seat_index := 2, money_cents := 100000,
    status := "active" }

/-- Seat-3 player who has gone all-in earlier (balance 0). -/
def exD : Player :=
  { id := "D", name := "Dan", seat_index := 3, money_cents := 0,
    status := "active" }

/-- A room in the betting phase with player A holding the turn. -/
def exRoomBetting : Room :=
  { code := "ROOM", current_round := 1, starting_player_index := 0,
    pot_cents := 0, table_total := 0, phase := "betting",
    turn_player_id := "A" }

/-- An empty round state. -/
def exRsEmpty : RoundState :=
  { bets_json := [], has_raised_json := [], has_bet_json := [],
    finalized_json := [], played_count := 0 }

/-- Fresh two-player betting state. -/
def exSt : GameSt := { room := exRoomBetting, players := [exA, exB], rs := exRsEmpty }

/-- Round state where A has bet 20000 and B 10000. -/
def exRsBets : RoundState :=
  { bets_json := [("A", 20000), ("B", 10000)], has_raised_json := [("A", true)],
    has_bet_json := [("A", true), ("B", true)], finalized_json := [], played_count := 0 }

/-- Round state where A has bet 10000 and already finalized. -/
def exRsFinalized : RoundState :=
  { bets_json := [("A", 10000)], has_raised_json := [("A", true)],
    has_bet_json := [("A", true)], finalized_json := [("A", true)],
    played_count := 0 }

/-- State in which A (balance 90000 after betting 10000) has finalized. -/
def exStFin : GameSt :=
  { room := { exRoomBetting with pot_cents := 10000 },
    players := [{ exA with money_cents := 90000 }, exB], rs := exRsFinalized }

/-- Player with only 5000 cents, below the 10000 minimum bet. -/
def exPoor : Player :=
  { id := "P", name := "Pat", seat_index := 0, money_cents := 5000,
    status := "active" }

/-- State where the poor player holds the turn. -/
def exStPoor : GameSt :=
  { room := { exRoomBetting with turn_player_id := "P" },
    players := [exPoor, exB], rs := exRsEmpty }

/-- Four players, pot 200000, bets 50000/40000/20000/10000; D is about to be
eliminated (the worked example of the distribution rule). -/
def exStPot : GameSt :=
  { room := { exRoomBetting with pot_cents := 200000, phase := "playing" },
    players := [exA, exB, exC, exD],
    rs := { exRsEmpty with
      bets_json := [("A", 50000), ("B", 40000), ("C", 20000), ("D", 10000)] } }

/-- Round end where binary64 rounding splits from exact arithmetic: all
three players went all-in (balances 0), survivors A and B bet 28768 and
16567 (totalSurvivorBets 45335), the eliminated C bet 45335, so the pot is
90670. -/
def exStFloat : GameSt :=
  { room := { exRoomBetting with pot_cents := 90670, phase := "playing" },
    players := [{ exA with money_cents := 0 }, { exB with money_cents := 0 },
      { exC with money_cents := 0 }],
    rs := { exRsEmpty with
      bets_json := [("A", 28768), ("B", 16567), ("C", 45335)] } }

/-! ## C8: dealCards -/

/-- C8 counterexample: the claim says `deal(deck, n)` fails with
`InsufficientCards` when the deck holds fewer than `n` cards; in the code
`dealCards` is `deck.splice(0, count)`, which is total — dealing 2 cards
from a 1-card deck silently returns the single card and leaves an empty
deck, with no failure path at all. -/
theorem c8_counterexample :
    dealCards [0] 2 = ([0], []) ∧ ([0] : List Int).length < 2 := by
  constructor
  · rfl
  · decide

/-- C8 (amended): `dealCards deck n` removes and returns the first
`min n deck.length` cards from the front, leaving the remainder
(`dealt ++ rest = deck`); when the deck has fewer than `n` cards it
returns the whole deck and leaves the empty deck, with no
`InsufficientCards` failure. -/
theorem c8_theorem (deck : List Int) (n : Nat) :
    (dealCards deck n).1 ++ (dealCards deck n).2 = deck
    ∧ (dealCards deck n).1.length = min n deck.length
    ∧ (deck.length ≤ n → (dealCards deck n).1 = deck ∧ (dealCards deck n).2 = []) := by
  refine ⟨List.take_append_drop n deck, List.length_take n deck, fun hle => ⟨?_, ?_⟩⟩
  · exact List.take_of_length_le hle
  · exact List.drop_of_length_le hle

/-- C8 witness: dealing 2 from the 1-card deck `[0]` returns the whole deck
and empties it. -/
theorem c8_witness :
    (dealCards [0] 2).1 = [0] ∧ (dealCards [0] 2).2 = [] :=
  (c8_theorem [0] 2).2.2 (by decide)

/-! ## C5: turn validation of betting actions -/

/-- C5 counterexample: the claim says `processBet` rejects a betting action
from an active player who does not hold the turn; in the code `processBet`
never consults `turn_player_id` — B bets 10000 while it is A's turn, the
action succeeds and the state changes (pot grows). -/
theorem c5_counterexample :
    exSt.room.turn_player_id ≠ "B"
    ∧ (processBet exSt "B" "bet" 10000).1.success = true
    ∧ (processBet exSt "B" "bet" 10000).2.room.pot_cents = 10000 := by
  refine ⟨by decide, ?_, ?_⟩ <;> rfl

/-- C5 (amended): the turn check lives in `validateAction`, not
`processBet`: for the `bet` action type in the betting phase,
`validateAction` rejects a player who does not hold the turn with
"Not your turn" (and, being pure, changes no state); `processBet` itself
accepts betting actions from any active player regardless of the turn
holder. -/
theorem c5_theorem (room : Room) (playerId : String)
    (hphase : room.phase = "betting")
    (hturn : room.turn_player_id ≠ playerId) :
    validateAction room playerId "bet" =
      { valid := false, error := some "Not your turn" } := by
  unfold validateAction
  rw [if_neg (by rw [hphase]; decide)]
  rw [if_neg (by rw [hphase]; decide)]
  rw [if_neg (by simp)]
  rw [if_neg (by simp [hphase])]
  rw [if_pos ⟨Or.inr rfl, hturn⟩]

/-- C5 witness: B does not hold the turn in the example betting room, so
`validateAction` rejects B's bet. -/
theorem c5_witness :
    validateAction exRoomBetting "B" "bet" =
      { valid := false, error := some "Not your turn" } :=
  c5_theorem exRoomBetting "B" rfl (by decide)

/-! ## C7: card-play validation -/

/-- C7 counterexample: the claim says `processCardPlay` fails with
`CardNotInHand` when the player does not hold the card and with
`NotYourTurn` when the phase is not `playing`; in the code
`processCardPlay` checks neither the phase nor the hand (it does not even
receive the hand) — here the phase is `betting` and the card value 3 is
accepted from A wholesale, mutating `table_total`. -/
theorem c7_counterexample :
    exSt.room.phase = "betting"
    ∧ (processCardPlay exSt "A" 3).1.success = true
    ∧ (processCardPlay exSt "A" 3).2.room.table_total = 3 := by
  refine ⟨rfl, ?_, ?_⟩ <;> rfl

/-- C7 (amended): for a listed active player, `processCardPlay` succeeds if
and only if that player holds the turn — the room phase and the card are
never checked; when the player does not hold the turn it fails with
"Not your turn" and leaves the whole state (in particular `table_total`,
`played_count` and the turn holder) unchanged. -/
theorem c7_theorem (st : GameSt) (playerId : String) (cardValue : Int)
    (player : Player)
    (hfind : st.players.find? (fun p => p.id = playerId) = some player)
    (hact : player.status = "active") :
    ((processCardPlay st playerId cardValue).1.success = true
      ↔ st.room.turn_player_id = playerId)
    ∧ (st.room.turn_player_id ≠ playerId →
        (processCardPlay st playerId cardValue).1
          = { success := false, error := some "Not your turn" }
        ∧ (processCardPlay st playerId cardValue).2 = st) := by
  unfold processCardPlay
  simp only [hfind]
  rw [if_neg (not_not_intro hact)]
  by_cases hturn : st.room.turn_player_id = playerId
  · rw [if_neg (not_not_intro hturn)]
    constructor
    · constructor
      · intro _; exact hturn
      · intro _
        by_cases hbust : st.room.table_total + cardValue ≥ BUST_THRESHOLD
        · rw [if_pos hbust]
        · rw [if_neg hbust]
          cases hnp : (st.players.filter fun p => p.status = "active").find?
            (fun p => p.seat_index = getNextPlayerIndex player.seat_index
              (st.players.filter fun q => q.status = "active")) with
          | none => rfl
          | some np => rfl
    · intro hcon; exact absurd hturn hcon
  · rw [if_pos hturn]
    exact ⟨⟨fun hfalse => by simp at hfalse, fun heq => absurd heq hturn⟩,
      fun _ => ⟨rfl, rfl⟩⟩

/-- C7 witness: B does not hold the turn in the fresh betting state, so the
card play fails with "Not your turn" and the state is untouched. -/
theorem c7_witness :
    (processCardPlay exSt "B" 3).1
      = { success := false, error := some "Not your turn" }
    ∧ (processCardPlay exSt "B" 3).2 = exSt :=
  (c7_theorem exSt "B" 3 exB rfl rfl).2 (by decide)

/-! ## C3: endRound raises after mutating -/

/-- C3: the claim is right about what `endRound` should do and the code is
wrong: the weighted distribution, the pot reset, the phase change and the
rotation to `(current + 1) mod 4` are all applied, and then the `return`
statement references the unbound identifiers `perPlayer` and `remainder`,
so every call raises a `ReferenceError` after the mutations. -/
theorem c3_theorem (st : GameSt) (eliminatedPlayerId : String)
    (_hs : survivorsOf st.players eliminatedPlayerId ≠ []) :
    (endRound st eliminatedPlayerId).2.err
      = some "ReferenceError: perPlayer is not defined"
    ∧ (endRound st eliminatedPlayerId).1.room.pot_cents = 0
    ∧ (endRound st eliminatedPlayerId).1.room.phase = "round_end"
    ∧ (endRound st eliminatedPlayerId).1.room.starting_player_index
        = (st.room.starting_player_index + 1).emod 4 := by
  refine ⟨rfl, rfl, rfl, rfl⟩

/-- C3 witness: the four-player pot state with D eliminated: the call ends
with the ReferenceError after zeroing the pot, entering round_end and
rotating the starting player. -/
theorem c3_witness :
    (endRound exStPot "D").2.err
      = some "ReferenceError: perPlayer is not defined"
    ∧ (endRound exStPot "D").1.room.pot_cents = 0
    ∧ (endRound exStPot "D").1.room.phase = "round_end"
    ∧ (endRound exStPot "D").1.room.starting_player_index = 1 :=
  c3_theorem exStPot "D" (by decide)

/-! ## C6: finalized players and further actions -/

/-- C6 counterexample: the claim says replaying `finalize()` a second time
fails with "already finalized"; in the code `processBet` never reads the
finalized flag, so the replayed finalize succeeds again. -/
theorem c6_counterexample :
    getFlag exStFin.rs.finalized_json "A" = true
    ∧ (processBet exStFin "A" "finalize" 0).1.success = true
    ∧ (processBet exStFin "A" "finalize" 0).1.error = none := by
  refine ⟨by decide, ?_, ?_⟩ <;> rfl

/-- C6 (amended): `processBet` does not itself reject actions from a
finalized player: a replayed `finalize` succeeds again, though it is
money-neutral — it changes no bets, no balances, no pot.  What keeps a
finalized player out of the betting round is turn advancement:
`getNextBettingPlayer` never returns a player whose finalized flag is set. -/
theorem c6_theorem (st : GameSt) (playerId : String) (amount : Int)
    (player : Player)
    (hfind : st.players.find? (fun p => p.id = playerId) = some player)
    (hact : player.status = "active")
    (hhb : getFlag st.rs.has_bet_json playerId = true)
    (hmin : ¬ (getBet st.rs.bets_json playerId < 10000 ∧ player.money_cents > 0))
    (_hfin : getFlag st.rs.finalized_json playerId = true) :
    (processBet st playerId "finalize" amount).1.success = true
    ∧ (processBet st playerId "finalize" amount).2.rs.bets_json = st.rs.bets_json
    ∧ (processBet st playerId "finalize" amount).2.players = st.players
    ∧ (processBet st playerId "finalize" amount).2.room = st.room
    ∧ (∀ (activePlayers : List Player) (currentSeatIndex : Int) (p : Player),
        getNextBettingPlayer activePlayers currentSeatIndex
          st.rs.finalized_json = some p →
        getFlag st.rs.finalized_json p.id = false) := by
  have hred : processBet st playerId "finalize" amount
      = ({ success := true, action := some "finalize",
           amount := some (getBet st.rs.bets_json playerId) },
         { st with rs := { st.rs with
             finalized_json := setFlag st.rs.finalized_json playerId true } }) := by
    unfold processBet
    simp only [hfind]
    rw [if_neg (not_not_intro hact)]
    rw [if_pos trivial]
    rw [if_neg (not_not_intro hhb)]
    rw [if_neg hmin]
  rw [hred]
  refine ⟨rfl, rfl, rfl, rfl, ?_⟩
  intro activePlayers currentSeatIndex p hp
  exact gnbpLoop_not_finalized activePlayers st.rs.finalized_json
    activePlayers.length currentSeatIndex p hp

/-- C6 witness: in the finalized example state, A finalizes a second time:
it succeeds again, and the bets, balances and pot are untouched. -/
theorem c6_witness :
    (processBet exStFin "A" "finalize" 0).1.success = true
    ∧ (processBet exStFin "A" "finalize" 0).2.rs.bets_json
        = exStFin.rs.bets_json
    ∧ (processBet exStFin "A" "finalize" 0).2.players = exStFin.players
    ∧ (processBet exStFin "A" "finalize" 0).2.room = exStFin.room := by
  have h := c6_theorem exStFin "A" 0 { exA with money_cents := 90000 }
    rfl rfl (by decide) (by decide) (by decide)
  exact ⟨h.1, h.2.1, h.2.2.1, h.2.2.2.1⟩

/-! ## C10: bet amount validation and the all-in alternative -/

/-- C10: `bet(amount)` succeeds exactly when the amount is one of the raise
amounts 10000/20000/50000 or the player's full balance, and the amount is
affordable; a raise amount above the balance fails with
"Insufficient funds"; `all-in` on a positive balance always succeeds,
committing exactly the full balance: the committed bet grows by the
balance and the balance becomes 0. -/
theorem c10_theorem (st : GameSt) (playerId : String) (amount : Int)
    (player : Player)
    (hfind : st.players.find? (fun p => p.id = playerId) = some player)
    (hact : player.status = "active") :
    ((processBet st playerId "bet" amount).1.success = true
      ↔ ((amount ∈ RAISE_AMOUNTS ∨ amount = player.money_cents)
          ∧ amount ≤ player.money_cents))
    ∧ ((amount ∈ RAISE_AMOUNTS ∨ amount = player.money_cents) →
        player.money_cents < amount →
        (processBet st playerId "bet" amount).1.error
          = some "Insufficient funds")
    ∧ (0 < player.money_cents →
        (processBet st playerId "all-in" amount).1.success = true
        ∧ (processBet st playerId "all-in" amount).1.amount
            = some player.money_cents
        ∧ getBet (processBet st playerId "all-in" amount).2.rs.bets_json playerId
            = getBet st.rs.bets_json playerId + player.money_cents
        ∧ (processBet st playerId "all-in" amount).2.players.find?
            (fun p => p.id = playerId)
            = some { player with money_cents := 0 }) := by
  rw [processBet_bet_eq st playerId amount player hfind hact,
    processBet_allin_eq st playerId amount player hfind hact]
  refine ⟨?_, ?_, ?_⟩
  · by_cases hval : amount ∈ RAISE_AMOUNTS ∨ amount = player.money_cents
    · rw [if_neg (fun hc => hval.elim (fun h => hc.1 h) (fun h => hc.2 h))]
      by_cases hmoney : player.money_cents < amount
      · rw [if_pos hmoney]
        constructor
        · intro hfalse
          exact absurd hfalse (by simp)
        · intro hrhs
          exact absurd hrhs.2 (by omega)
      · rw [if_neg hmoney]
        exact ⟨fun _ => ⟨hval, by omega⟩, fun _ => rfl⟩
    · push_neg at hval
      rw [if_pos ⟨hval.1, hval.2⟩]
      constructor
      · intro hfalse
        exact absurd hfalse (by simp)
      · intro hrhs
        rcases hrhs.1 with h | h
        · exact absurd h hval.1
        · exact absurd h hval.2
  · intro hval hmoney
    rw [if_neg (fun hc => hval.elim (fun h => hc.1 h) (fun h => hc.2 h))]
    rw [if_pos hmoney]
  · intro hpos
    have hz : ¬ (player.money_cents = 0) := by omega
    rw [if_neg hz]
    refine ⟨rfl, rfl, ?_, ?_⟩
    · exact getBet_setBet_self _ _ _
    · rw [find?_mapPlayer, hfind]
      rfl

/-- C10 witness: the player with balance 5000 cannot `bet(10000)` — it
fails with "Insufficient funds" — while the same player's `all-in`
succeeds, committing exactly 5000 and zeroing the balance. -/
theorem c10_witness :
    (processBet exStPoor "P" "bet" 10000).1.error = some "Insufficient funds"
    ∧ (processBet exStPoor "P" "all-in" 0).1.success = true
    ∧ (processBet exStPoor "P" "all-in" 0).1.amount = some 5000
    ∧ getBet (processBet exStPoor "P" "all-in" 0).2.rs.bets_json "P" = 5000 := by
  have h := c10_theorem exStPoor "P" 10000 exPoor rfl rfl
  have h1 := h.2.1 (Or.inl (by decide)) (by decide)
  have h2 := (c10_theorem exStPoor "P" 0 exPoor rfl rfl).2.2 (by decide)
  exact ⟨h1, h2.1, h2.2.1, h2.2.2.1⟩

/-! ## C9: committed bets never decrease -/

/-- C9: across every `processBet` call (any action, success or failure),
no player's committed bet decreases — `bet` and `all-in` add a
non-negative amount, and a successful `call` raises the caller's bet to
`max(current, table-high)`, never below the current bet — provided every
balance is non-negative (the system invariant). -/
theorem c9_theorem (st : GameSt) (playerId action : String) (amount : Int)
    (hm : ∀ pl ∈ st.players, 0 ≤ pl.money_cents) :
    (∀ q, getBet st.rs.bets_json q
      ≤ getBet (processBet st playerId action amount).2.rs.bets_json q)
    ∧ (action = "call" →
        (processBet st playerId action amount).1.success = true →
        getBet (processBet st playerId action amount).2.rs.bets_json playerId
          = max (getBet st.rs.bets_json playerId) (betsMax st.rs.bets_json)) := by
  cases hfind : st.players.find? (fun p => p.id = playerId) with
  | none =>
    rw [processBet_notFound_eq st playerId action amount hfind]
    exact ⟨fun q => le_refl _, fun _ hs => by simp at hs⟩
  | some player =>
    by_cases hact : player.status = "active"
    case neg =>
      rw [processBet_inactive_eq st playerId action amount player hfind hact]
      exact ⟨fun q => le_refl _, fun _ hs => by simp at hs⟩
    case pos =>
    have hmoney : 0 ≤ player.money_cents :=
      hm player (List.mem_of_find?_eq_some hfind)
    by_cases hfz : action = "finalize"
    · subst hfz
      rw [processBet_finalize_eq st playerId amount player hfind hact]
      refine ⟨fun q => ?_, fun hc => absurd hc (by decide)⟩
      split_ifs <;> exact le_refl _
    · by_cases hbet : action = "bet"
      · subst hbet
        rw [processBet_bet_eq st playerId amount player hfind hact]
        refine ⟨fun q => ?_, fun hc => absurd hc (by decide)⟩
        by_cases h1 : amount ∉ RAISE_AMOUNTS ∧ amount ≠ player.money_cents
        · rw [if_pos h1]
        · rw [if_neg h1]
          by_cases h2 : player.money_cents < amount
          · rw [if_pos h2]
          · rw [if_neg h2]
            apply getBet_le_setBet
            have hamount : 0 ≤ amount := by
              rcases not_and_or.mp h1 with hmem | heq
              · have hmem' : amount ∈ RAISE_AMOUNTS := not_not.mp hmem
                simp [RAISE_AMOUNTS] at hmem'
                rcases hmem' with h | h | h <;> omega
              · have := not_not.mp heq
                omega
            omega
      · by_cases hcall : action = "call"
        · subst hcall
          rw [processBet_call_eq st playerId amount player hfind hact]
          constructor
          · intro q
            split_ifs with h1 h2
            · exact le_refl _
            · exact getBet_le_setBet _ _ _ _ (getBet_le_betsMax _ _)
            · exact le_refl _
          · intro _
            by_cases h1 : callAmountOf st playerId > 0
            · rw [if_pos h1]
              by_cases h2 : player.money_cents < callAmountOf st playerId
              · rw [if_pos h2]
                intro hs
                simp at hs
              · rw [if_neg h2]
                intro _
                rw [getBet_setBet_self]
                have hlt : getBet st.rs.bets_json playerId
                    < betsMax st.rs.bets_json := by
                  unfold callAmountOf at h1
                  rcases le_or_lt (betsMax st.rs.bets_json
                      - getBet st.rs.bets_json playerId) 0 with hle | hlt
                  · rw [max_eq_left hle] at h1
                    omega
                  · omega
                rw [max_eq_right (le_of_lt hlt)]
            · rw [if_neg h1]
              intro _
              have hle : betsMax st.rs.bets_json
                  ≤ getBet st.rs.bets_json playerId := by
                unfold callAmountOf at h1
                push_neg at h1
                have h2 : betsMax st.rs.bets_json
                    - getBet st.rs.bets_json playerId
                    ≤ max 0 (betsMax st.rs.bets_json
                      - getBet st.rs.bets_json playerId) := le_max_right _ _
                omega
              rw [max_eq_left hle]
        · by_cases hallin : action = "all-in"
          · subst hallin
            rw [processBet_allin_eq st playerId amount player hfind hact]
            refine ⟨fun q => ?_, fun hc => absurd hc (by decide)⟩
            by_cases h1 : player.money_cents = 0
            · rw [if_pos h1]
            · rw [if_neg h1]
              exact getBet_le_setBet _ _ _ _ (by omega)
          · rw [processBet_other_eq st playerId action amount player hfind
              hact hfz hbet hcall hallin]
            exact ⟨fun q => le_refl _, fun hc _ => absurd hc hcall⟩

/-- C9 witness: after B calls A's 20000 in the example state, B's committed
bet has not decreased, and it equals the table-high 20000. -/
theorem c9_witness :
    getBet exRsBets.bets_json "B"
      ≤ getBet (processBet { exSt with rs := exRsBets } "B" "call" 0).2.rs.bets_json "B"
    ∧ getBet (processBet { exSt with rs := exRsBets } "B" "call" 0).2.rs.bets_json "B"
        = 20000 := by
  have h := c9_theorem { exSt with rs := exRsBets } "B" "call" 0 (by decide)
  refine ⟨h.1 "B", ?_⟩
  have h2 := h.2 rfl (by rfl)
  exact h2.trans (by decide)

/-! ## C4: money conservation -/

/-- C4: the sum of all balances plus the pot is invariant under every
betting step (bet, call, all-in, finalize, and every failure path) and
under the round-end distribution, which moves the whole pot into the
survivors' balances and zeroes it — given distinct player ids and, for the
distribution, at least one survivor. -/
theorem c4_theorem (st : GameSt) (act : GameAction)
    (hnd : (st.players.map (·.id)).Nodup)
    (hsurv : ∀ e, act = .endRoundAct e → survivorsOf st.players e ≠ []) :
    totalMoney (applyAction st act) = totalMoney st := by
  cases act with
  | betAct playerId action amount =>
    show totalMoney (processBet st playerId action amount).2 = totalMoney st
    cases hfind : st.players.find? (fun p => p.id = playerId) with
    | none => rw [processBet_notFound_eq st playerId action amount hfind]
    | some player =>
      by_cases hact : player.status = "active"
      case neg =>
        rw [processBet_inactive_eq st playerId action amount player hfind hact]
      case pos =>
      by_cases hfz : action = "finalize"
      · subst hfz
        rw [processBet_finalize_eq st playerId amount player hfind hact]
        unfold totalMoney
        split_ifs <;> rfl
      · by_cases hbet : action = "bet"
        · subst hbet
          rw [processBet_bet_eq st playerId amount player hfind hact]
          by_cases h1 : amount ∉ RAISE_AMOUNTS ∧ amount ≠ player.money_cents
          · rw [if_pos h1]
          · rw [if_neg h1]
            by_cases h2 : player.money_cents < amount
            · rw [if_pos h2]
            · rw [if_neg h2]
              show moneySum (mapPlayer st.players playerId (fun m => m - amount))
                  + (st.room.pot_cents + amount)
                = moneySum st.players + st.room.pot_cents
              rw [moneySum_mapPlayer st.players playerId _ player hnd hfind]
              ring
        · by_cases hcall : action = "call"
          · subst hcall
            rw [processBet_call_eq st playerId amount player hfind hact]
            by_cases h1 : callAmountOf st playerId > 0
            · rw [if_pos h1]
              by_cases h2 : player.money_cents < callAmountOf st playerId
              · rw [if_pos h2]
              · rw [if_neg h2]
                show moneySum (mapPlayer st.players playerId
                      (fun m => m - callAmountOf st playerId))
                    + (st.room.pot_cents + callAmountOf st playerId)
                  = moneySum st.players + st.room.pot_cents
                rw [moneySum_mapPlayer st.players playerId _ player hnd hfind]
                ring
            · rw [if_neg h1]
              rfl
          · by_cases hallin : action = "all-in"
            · subst hallin
              rw [processBet_allin_eq st playerId amount player hfind hact]
              by_cases h1 : player.money_cents = 0
              · rw [if_pos h1]
              · rw [if_neg h1]
                show moneySum (mapPlayer st.players playerId (fun _ => 0))
                    + (st.room.pot_cents + player.money_cents)
                  = moneySum st.players + st.room.pot_cents
                rw [moneySum_mapPlayer st.players playerId _ player hnd hfind]
                ring
            · rw [processBet_other_eq st playerId action amount player hfind
                hact hfz hbet hcall hallin]
  | endRoundAct eliminatedPlayerId =>
    show totalMoney (endRound st eliminatedPlayerId).1 = totalMoney st
    have hne := hsurv eliminatedPlayerId rfl
    have hmem : ∀ s ∈ survivorsOf st.players eliminatedPlayerId,
        s.id ∈ st.players.map (·.id) := by
      intro s hsm
      unfold survivorsOf at hsm
      exact List.mem_map.mpr
        ⟨s, List.mem_of_mem_filter (List.mem_of_mem_filter hsm), rfl⟩
    have hd := distLoop_spec st.room.pot_cents
      (((survivorsOf st.players eliminatedPlayerId).map
        (fun s => getBet st.rs.bets_json s.id)).sum)
      st.rs.bets_json (survivorsOf st.players eliminatedPlayerId).length
      (survivorsOf st.players eliminatedPlayerId) hne 0 0 st.players []
      (Nat.zero_add _)
    have hms := distLoop_moneySum st.room.pot_cents
      (((survivorsOf st.players eliminatedPlayerId).map
        (fun s => getBet st.rs.bets_json s.id)).sum)
      st.rs.bets_json (survivorsOf st.players eliminatedPlayerId).length
      (survivorsOf st.players eliminatedPlayerId) 0 0 st.players [] hnd hmem
    show moneySum (distLoop st.room.pot_cents
        (((survivorsOf st.players eliminatedPlayerId).map
          (fun s => getBet st.rs.bets_json s.id)).sum)
        st.rs.bets_json (survivorsOf st.players eliminatedPlayerId).length
        (survivorsOf st.players eliminatedPlayerId) 0 0 st.players []).1 + 0
      = moneySum st.players + st.room.pot_cents
    rw [hms, hd.2]
    ring

/-- C4 witness: distributing the 200000 pot to survivors A, B, C after D's
elimination conserves total money. -/
theorem c4_witness :
    totalMoney (applyAction exStPot (.endRoundAct "D")) = totalMoney exStPot :=
  c4_theorem exStPot (.endRoundAct "D") (by decide)
    (fun e he => by cases he; decide)

/-! ## C2: weighted pot distribution -/

/-- C2 counterexample: the claim says each survivor's share equals the
exact `⌊pot * survivorBet / totalSurvivorBets⌋`; the code computes
`Math.floor(pot * (survivorBet / totalSurvivorBets))` in binary64 double
arithmetic, whose two roundings can land one below the exact floor.  At
pot 90670 with survivor bets 28768 and 16567 (total 45335), the program
gives survivor A `Math.floor(90670 * (28768/45335)) =
Math.floor(57535.99999999999) = 57535`, while the claim's formula gives
`⌊90670·28768/45335⌋ = 57536`; the difference lands on the last survivor
B, who gets 33135 instead of 33134. -/
theorem c2_counterexample :
    (endRound exStFloat "C").2.distributions = [("A", 57535), ("B", 33135)]
    ∧ ((90670 * 28768 : Int)).fdiv 45335 = 57536 := by
  constructor
  · decide
  · decide

/-- The share the code's distribution formula assigns to survivor `s` at
round end: `Math.floor(pot * (survivorBet / totalSurvivorBets))` in
binary64 arithmetic (equal floor split via `Math.floor(pot / n)` when
`totalSurvivorBets` is 0). -/
def survivorShareOf (st : GameSt) (eliminatedPlayerId : String)
    (s : Player) : Int :=
  survivorShare st.room.pot_cents
    (((survivorsOf st.players eliminatedPlayerId).map
      (fun t => getBet st.rs.bets_json t.id)).sum)
    (survivorsOf st.players eliminatedPlayerId).length
    (getBet st.rs.bets_json s.id)

/-- C2 (amended): at round end with at least one survivor, every survivor
except the last receives `Math.floor(pot * (bet / totalSurvivorBets))`
computed in binary64 double arithmetic — which can sit one unit below the
exact `⌊pot·bet/totalSurvivorBets⌋` at borderline inputs (equal floor
split when `totalSurvivorBets = 0`) — the last survivor in iteration
order receives their formula share plus the whole rounding remainder
relative to those shares, and the recorded shares sum exactly to the
pre-distribution pot. -/
theorem c2_theorem (st : GameSt) (eliminatedPlayerId : String)
    (hs : survivorsOf st.players eliminatedPlayerId ≠ []) :
    (endRound st eliminatedPlayerId).2.distributions
      = (survivorsOf st.players eliminatedPlayerId).dropLast.map
          (fun s => (s.id, survivorShareOf st eliminatedPlayerId s))
        ++ [(((survivorsOf st.players eliminatedPlayerId).getLast hs).id,
             survivorShareOf st eliminatedPlayerId
               ((survivorsOf st.players eliminatedPlayerId).getLast hs)
             + (st.room.pot_cents
                - ((survivorsOf st.players eliminatedPlayerId).map
                    (survivorShareOf st eliminatedPlayerId)).sum))]
    ∧ ((endRound st eliminatedPlayerId).2.distributions.map (·.2)).sum
        = st.room.pot_cents := by
  have hd := distLoop_spec st.room.pot_cents
    (((survivorsOf st.players eliminatedPlayerId).map
      (fun s => getBet st.rs.bets_json s.id)).sum)
    st.rs.bets_json (survivorsOf st.players eliminatedPlayerId).length
    (survivorsOf st.players eliminatedPlayerId) hs 0 0 st.players []
    (Nat.zero_add _)
  have hdist : (endRound st eliminatedPlayerId).2.distributions
      = (distLoop st.room.pot_cents
          (((survivorsOf st.players eliminatedPlayerId).map
            (fun s => getBet st.rs.bets_json s.id)).sum)
          st.rs.bets_json (survivorsOf st.players eliminatedPlayerId).length
          (survivorsOf st.players eliminatedPlayerId) 0 0 st.players []).2.1 := rfl
  have hbase : ∀ s : Player, baseShareOf st.room.pot_cents
      (((survivorsOf st.players eliminatedPlayerId).map
        (fun s => getBet st.rs.bets_json s.id)).sum) st.rs.bets_json
      (survivorsOf st.players eliminatedPlayerId).length s
      = (s.id, survivorShareOf st eliminatedPlayerId s) := fun s => rfl
  have hsplit : (survivorsOf st.players eliminatedPlayerId).dropLast
      ++ [(survivorsOf st.players eliminatedPlayerId).getLast hs]
      = survivorsOf st.players eliminatedPlayerId :=
    List.dropLast_append_getLast hs
  have hsum : ((survivorsOf st.players eliminatedPlayerId).map
      (survivorShareOf st eliminatedPlayerId)).sum
      = ((survivorsOf st.players eliminatedPlayerId).dropLast.map
          (survivorShareOf st eliminatedPlayerId)).sum
        + survivorShareOf st eliminatedPlayerId
            ((survivorsOf st.players eliminatedPlayerId).getLast hs) := by
    conv_lhs => rw [← hsplit]
    rw [List.map_append, List.sum_append]
    simp
  obtain ⟨hd1, _⟩ := hd
  have hfun : List.map (baseShareOf st.room.pot_cents
      (((survivorsOf st.players eliminatedPlayerId).map
        (fun s => getBet st.rs.bets_json s.id)).sum) st.rs.bets_json
      (survivorsOf st.players eliminatedPlayerId).length)
      (survivorsOf st.players eliminatedPlayerId).dropLast
      = (survivorsOf st.players eliminatedPlayerId).dropLast.map
          (fun s => (s.id, survivorShareOf st eliminatedPlayerId s)) := rfl
  rw [hfun] at hd1
  have hmm : (List.map (fun x => x.2)
      ((survivorsOf st.players eliminatedPlayerId).dropLast.map
        (fun s => (s.id, survivorShareOf st eliminatedPlayerId s)))).sum
      = ((survivorsOf st.players eliminatedPlayerId).dropLast.map
          (survivorShareOf st eliminatedPlayerId)).sum := by
    rw [List.map_map]
    rfl
  rw [hmm] at hd1
  constructor
  · rw [hdist, hd1]
    have hval : st.room.pot_cents - 0
        - ((survivorsOf st.players eliminatedPlayerId).dropLast.map
            (survivorShareOf st eliminatedPlayerId)).sum
        = survivorShareOf st eliminatedPlayerId
            ((survivorsOf st.players eliminatedPlayerId).getLast hs)
          + (st.room.pot_cents
             - ((survivorsOf st.players eliminatedPlayerId).map
                 (survivorShareOf st eliminatedPlayerId)).sum) := by
      rw [hsum]
      ring
    rw [hval, List.nil_append]
  · rw [hdist, hd1]
    simp only [List.nil_append, List.map_append, List.sum_append, hmm]
    simp

/-- C2 witness: the spec's worked scenario — pot 200000, survivor bets
50000/40000/20000, D's 10000 forfeited: shares 90909, 72727 and
36364 (last survivor takes the remainder), summing to 200000. -/
theorem c2_witness :
    (endRound exStPot "D").2.distributions
      = [("A", 90909), ("B", 72727), ("C", 36364)]
    ∧ ((endRound exStPot "D").2.distributions.map (·.2)).sum = 200000 := by
  have h := c2_theorem exStPot "D" (by decide)
  constructor
  · rw [h.1]
    decide
  · exact h.2.trans (by decide)

/-! ## C1: play-order resolution after betting -/

/-- C1 counterexample: the claim says the highest bettor must choose to
play first or last and that the machine pauses awaiting that decision
before the order is computed; in the code `transitionToPlaying` takes no
choice input and resolves everything in one step — with A the highest
bettor (20000 > 10000), the single call immediately enters the `playing`
phase, hands the turn to B, and forces A to the end of the order (A plays
last, with no option to play first and no pausing sub-state). -/
theorem c1_counterexample :
    transitionToPlaying exRoomBetting [exA, exB] exRsBets
      = some ({ exRoomBetting with
          phase := "playing", turn_player_id := "B" }, [exB, exA]) := by
  decide

/-- C1 (amended): when the betting phase ends with a positive highest
committed bet, `transitionToPlaying` resolves the order immediately, with
no choice and no pausing sub-state: in the same call it sets the phase to
`playing`, computes the order as seat order from `starting_player_index`
with the highest bettor moved to the end (so the bettor plays last), and
gives the turn to the first player of that order. -/
theorem c1_theorem (room : Room) (activePlayers : List Player)
    (rs : RoundState) (hb : Int) (h : String)
    (hnd : (activePlayers.map (·.id)).Nodup)
    (hact : ∀ p ∈ activePlayers, p.status = "active")
    (hids : ∀ p ∈ activePlayers, p.id ≠ "")
    (hloop : highestLoop rs.bets_json activePlayers (0, none) = (hb, some h))
    (hpos : hb > 0) :
    ∃ r ord, transitionToPlaying room activePlayers rs = some (r, ord)
      ∧ r.phase = "playing"
      ∧ ord = movedToEndOrder
          (getPlayersInTurnOrder activePlayers room.starting_player_index) h
      ∧ (ord.getLast?).map (·.id) = some h
      ∧ (∃ fp, ord.head? = some fp ∧ r.turn_player_id = fp.id) := by
  have hmem0 := highestLoop_some_mem rs.bets_json activePlayers (0, none) h
    (by rw [hloop])
  rcases hmem0 with habs | ⟨p0, hp0mem, hp0id⟩
  · simp at habs
  have hne : h ≠ "" := hp0id ▸ hids p0 hp0mem
  have hshape := transitionToPlaying_shape room activePlayers rs hb h
    hnd hact hloop hpos hne
  have hp0ord : p0 ∈ getPlayersInTurnOrder activePlayers
      room.starting_player_index :=
    mem_getPlayersInTurnOrder _ _ _ hp0mem (hact p0 hp0mem)
  obtain ⟨hlast, hmne⟩ := movedToEndOrder_getLast
    (getPlayersInTurnOrder activePlayers room.starting_player_index) h
    p0 hp0ord hp0id
  cases hM : movedToEndOrder
      (getPlayersInTurnOrder activePlayers room.starting_player_index) h with
  | nil => exact absurd hM hmne
  | cons fp tl =>
    rw [hM] at hshape hlast
    refine ⟨{ room with phase := "playing", turn_player_id := fp.id },
      fp :: tl, hshape, rfl, ?_, hlast, fp, rfl, rfl⟩
    rfl

/-- C1 witness: in the concrete two-player state with A the highest
bettor, the resolved order puts A last and the phase is `playing`
immediately. -/
theorem c1_witness :
    (transitionToPlaying exRoomBetting [exA, exB] exRsBets).isSome = true
    ∧ (transitionToPlaying exRoomBetting [exA, exB] exRsBets).map
        (fun r => r.1.phase) = some "playing"
    ∧ (transitionToPlaying exRoomBetting [exA, exB] exRsBets).map
        (fun r => (r.2.getLast?).map (·.id)) = some (some "A") := by
  obtain ⟨r, ord, hEq, hphase, _, hlast, _⟩ :=
    c1_theorem exRoomBetting [exA, exB] exRsBets 20000 "A"
      (by decide) (by decide) (by decide) (by decide) (by decide)
  rw [hEq]
  exact ⟨rfl, by simp [hphase], by simp [hlast]⟩

end NOT10
